import Mathlib

/-!
Shallow embedding of the DIN Properties registry synchronization and import
engine (src/pages/AdminPortal.tsx and the application shell it is embedded
in): the CSV row parser, column resolver, value normalizer, entity builder,
reconciliation engine (destructive and additive merge, identity-claiming
registration) and the persistence coordinator, together with proofs of the
specified properties.

Numbers are modelled as rationals (the source manipulates JavaScript
numbers through `parseFloat` on decimal text); wall-clock time
(`Date.now()`) is an explicit integer parameter.
-/

namespace DinRegistry

/-! ### JavaScript string and number primitives

All string manipulation is implemented over `List Char` with structural
recursion (rather than through the standard library's position-based
string functions) so that every definition evaluates by kernel
reduction. -/

/-- ASCII lowercasing of one character (`toLowerCase` restricted to the
ASCII range the import's header aliases live in). -/
def lowerChar (c : Char) : Char :=
  if 'A' ≤ c ∧ c ≤ 'Z' then Char.ofNat (c.toNat + 32) else c

/-- `h.toLowerCase()`. -/
def toLowerStr (s : String) : String :=
  String.mk (s.toList.map lowerChar)

/-- ASCII uppercasing of one character. -/
def upperChar (c : Char) : Char :=
  if 'a' ≤ c ∧ c ≤ 'z' then Char.ofNat (c.toNat - 32) else c

/-- `v.toUpperCase()`. -/
def toUpperStr (s : String) : String :=
  String.mk (s.toList.map upperChar)

/-- Strip leading and trailing whitespace from a character list. -/
def trimChars (cs : List Char) : List Char :=
  ((cs.dropWhile Char.isWhitespace).reverse.dropWhile Char.isWhitespace).reverse

/-- `s.trim()`. -/
def jsTrim (s : String) : String :=
  String.mk (trimChars s.toList)

/-- Split a character list at every newline. -/
def splitNl : List Char → List (List Char)
  | [] => [[]]
  | c :: rest =>
    if c = '\n' then [] :: splitNl rest
    else
      match splitNl rest with
      | [] => [[c]]
      | h :: t => (c :: h) :: t

/-- One step of `text.split(/\r?\n/)`: a carriage return is only consumed
when it immediately precedes the newline that caused the split. -/
def dropCR (l : String) : String :=
  if l.toList.getLast? = some '\r' then String.mk l.toList.dropLast else l

/-- Apply `dropCR` to every piece except the last (the last piece was not
followed by a newline, so its trailing carriage return survives). -/
def mapButLast : List String → List String
  | [] => []
  | [x] => [x]
  | x :: y :: xs => dropCR x :: mapButLast (y :: xs)

/-- `text.split(/\r?\n/)` from `handleMasterSync`. -/
def splitJsLines (s : String) : List String :=
  mapButLast ((splitNl s.toList).map String.mk)

/-- `text.replace(/^﻿/, '')`: strip one leading byte-order mark. -/
def stripBOM (s : String) : String :=
  match s.toList with
  | '﻿' :: rest => String.mk rest
  | _ => s

/-- `lines = text.split(/\r?\n/).filter(l => l.trim() !== '')`. -/
def nonEmptyLines (s : String) : List String :=
  (splitJsLines s).filter (fun l => jsTrim l ≠ "")

/-- `v.replace(/,/g, '')`: delete every comma. -/
def stripCommas (s : String) : String :=
  String.mk (s.toList.filter (fun c => ¬(c = ',')))

/-- `v.replace(/[()]/g, '')`: delete every parenthesis. -/
def stripParens (s : String) : String :=
  String.mk (s.toList.filter (fun c => ¬(c = '(' ∨ c = ')')))

/-- Value of a list of decimal digit characters. -/
def digitsVal (cs : List Char) : Nat :=
  cs.foldl (fun n c => 10 * n + (c.toNat - 48)) 0

/-- Exact rational addition, written through `mkRat` so that concrete
instances evaluate by kernel reduction; provably equal to `ℚ` addition
(`qAdd_eq`). JavaScript number addition on the decimal amounts handled
by the import is exact, so this models `+` faithfully. -/
def qAdd (a b : ℚ) : ℚ :=
  mkRat (a.num * b.den + b.num * a.den) (a.den * b.den)

/-- Exact rational negation through `mkRat`. -/
def qNeg (q : ℚ) : ℚ :=
  mkRat (-q.num) q.den

/-- Exponent suffix handling of `parseFloat`: `e`/`E` followed by an
optional sign and digits; without digits the suffix is not part of the
numeric literal and is ignored. -/
def applyExp (q : ℚ) (cs : List Char) : ℚ :=
  let (neg, cs') := match cs with
    | '-' :: r => (true, r)
    | '+' :: r => (false, r)
    | _ => (false, cs)
  let ds := cs'.takeWhile Char.isDigit
  if ds.isEmpty then q
  else if neg then mkRat q.num (q.den * 10 ^ digitsVal ds)
  else mkRat (q.num * 10 ^ digitsVal ds) q.den

/-- JavaScript `parseFloat`: longest prefix of the form
`[ws][sign]digits[.digits][exponent]`; `none` models `NaN` (no digit in
the mantissa). -/
def jsParseFloat (s : String) : Option ℚ :=
  let cs := s.toList.dropWhile Char.isWhitespace
  let (isNeg, cs1) : Bool × List Char := match cs with
    | '-' :: rest => (true, rest)
    | '+' :: rest => (false, rest)
    | _ => (false, cs)
  let intPart := cs1.takeWhile Char.isDigit
  let cs2 := cs1.dropWhile Char.isDigit
  let (fracPart, cs3) : List Char × List Char := match cs2 with
    | '.' :: rest => (rest.takeWhile Char.isDigit, rest.dropWhile Char.isDigit)
    | _ => ([], cs2)
  if intPart.isEmpty ∧ fracPart.isEmpty then none
  else
    let base : ℚ :=
      mkRat (digitsVal intPart * 10 ^ fracPart.length + digitsVal fracPart)
        (10 ^ fracPart.length)
    let scaled : ℚ := match cs3 with
      | 'e' :: rest => applyExp base rest
      | 'E' :: rest => applyExp base rest
      | _ => base
    some (if isNeg then qNeg scaled else scaled)

/-- `rawCNIC.replace(/[^0-9X]/g, '')`: keep only decimal digits and the
uppercase check character `X`, in order. -/
def normCnic (s : String) : String :=
  String.mk (s.toList.filter (fun c => c.isDigit || c = 'X'))

/-- JavaScript `v || d` for an optional string `v`: `undefined` and the
empty string are falsy and select the default. -/
def jsOr (v : Option String) (d : String) : String :=
  match v with
  | none => d
  | some s => if s = "" then d else s

/-- `parseCSVLine` from AdminPortal.tsx: split one line at unquoted
commas, a quote character toggling the in-quotes mode, each field
trimmed. -/
def parseCSVLine (line : String) : List String :=
  let step : List String × String × Bool → Char → List String × String × Bool :=
    fun (cols, cur, inQ) c =>
      if c = '"' then (cols, cur, !inQ)
      else if c = ',' ∧ ¬inQ then (cols ++ [jsTrim cur], "", inQ)
      else (cols, cur.push c, inQ)
  let (cols, cur, _) := line.toList.foldl step ([], "", false)
  cols ++ [jsTrim cur]

/-! ### Data model (src/types.ts, fields as materialized by the import) -/

structure User where
  id : String
  cnic : String
  name : String
  email : String
  phone : String
  role : String
  status : String
  password : String
  deriving DecidableEq, Repr

structure Transaction where
  seq : Nat
  transid : ℤ
  line_id : Nat
  shortname : String
  duedate : String
  receivable : ℚ
  u_intno : ℚ
  u_intname : String
  transtype : String
  itemcode : String
  plottype : String
  currency : String
  description : String
  doctotal : ℚ
  status : String
  balance : ℚ
  balduedeb : ℚ
  paysrc : ℚ
  amount_paid : ℚ
  receipt_date : Option String
  mode : Option String
  surcharge : ℚ
  deriving DecidableEq, Repr

structure PropertyFile where
  fileNo : String
  currencyNo : String
  plotSize : String
  plotValue : ℚ
  balance : ℚ
  receivable : ℚ
  totalReceivable : ℚ
  paymentReceived : ℚ
  surcharge : ℚ
  overdue : ℚ
  ownerName : String
  ownerCNIC : String
  fatherName : String
  cellNo : String
  regDate : String
  address : String
  plotNo : String
  block : String
  park : String
  corner : String
  mainBoulevard : String
  transactions : List Transaction
  deriving DecidableEq, Repr

/-- The live Registry: the member and account collections. -/
structure Registry where
  users : List User
  files : List PropertyFile
  deriving DecidableEq, Repr

/-! ### Insertion-ordered string-keyed map (JavaScript `Map` semantics) -/

/-- `Map.prototype.set`: an existing key is updated in place (its position
is kept), a new key is appended. -/
def mapSet {α : Type} (m : List (String × α)) (k : String) (v : α) :
    List (String × α) :=
  if m.any (fun p => p.1 = k) then
    m.map (fun p => if p.1 = k then (k, v) else p)
  else m ++ [(k, v)]

/-- `Map.prototype.get`. -/
def mapGet? {α : Type} (m : List (String × α)) (k : String) : Option α :=
  (m.find? (fun p => p.1 = k)).map Prod.snd

/-- `Map.prototype.has`. -/
def mapHas {α : Type} (m : List (String × α)) (k : String) : Bool :=
  m.any (fun p => p.1 = k)

/-- `Array.from(map.values())` in insertion order. -/
def mapValues {α : Type} (m : List (String × α)) : List α :=
  m.map Prod.snd

/-! ### Column resolver and value normalizer (handleMasterSync) -/

/-- `getIdx`: first alias (in priority order) whose lowercase form occurs
in the normalized header, as a column index. -/
def getIdx (normH : List String) : List String → Option Nat
  | [] => none
  | n :: rest =>
    match normH.findIdx? (fun h => h = toLowerStr n) with
    | some i => some i
    | none => getIdx normH rest

/-- `col`: the trimmed cell of the resolved column, `undefined` when no
alias resolves or the row is shorter than the header. -/
def col (normH cols : List String) (names : List String) : Option String :=
  (getIdx normH names).bind (fun i => (cols.get? i).map jsTrim)

/-- `parseVal`: falsy values and the placeholders `NULL` (any case) and
`-` give `0`; otherwise commas and parentheses are stripped and the text
parsed as a float, `NaN` degrading to `0` through `|| 0`. -/
def parseVal (v : Option String) : ℚ :=
  match v with
  | none => 0
  | some s =>
    if s = "" ∨ toUpperStr s = "NULL" ∨ s = "-" then 0
    else
      match jsParseFloat (stripParens (stripCommas s)) with
      | none => 0
      | some q => q

/-! ### Entity builder (handleMasterSync row loop) -/

def cnicAliases : List String := ["ocnic", "cnic", "u_ocnic"]

def itemAliases : List String := ["itemcode", "item_code", "u_itemcode"]

/-- The Member materialized for a not-yet-seen normalized identity. -/
def mkUser (normH cols : List String) (rawCNIC normCNIC : String) : User where
  id := "user-" ++ normCNIC
  cnic := rawCNIC
  name := jsOr (col normH cols ["oname", "ownername", "name"]) "SAP Member"
  email := normCNIC ++ "@dinproperties.com.pk"
  phone := jsOr (col normH cols ["ocell", "cellno"]) "-"
  role := "CLIENT"
  status := "Active"
  password := "password123"

/-- The PropertyAccount materialized for a not-yet-seen account code,
seeded with zeroed aggregates and the owner's denormalized display
fields. -/
def mkFile (normH cols : List String) (itemCode rawCNIC ownerNm : String) :
    PropertyFile where
  fileNo := itemCode
  currencyNo := jsOr (col normH cols ["currencyno", "currency"]) "-"
  plotSize := jsOr (col normH cols ["dscription", "description", "size"]) "Plot"
  plotValue := parseVal (col normH cols ["doctotal"])
  balance := 0
  receivable := 0
  totalReceivable := 0
  paymentReceived := 0
  surcharge := 0
  overdue := 0
  ownerName := ownerNm
  ownerCNIC := rawCNIC
  fatherName := jsOr (col normH cols ["ofatname", "fathername"]) "-"
  cellNo := jsOr (col normH cols ["ocell", "cellno"]) "-"
  regDate := jsOr (col normH cols ["otrfdate", "regdate"]) "-"
  address := jsOr (col normH cols ["opraddress", "address"]) "-"
  plotNo := jsOr (col normH cols ["plot", "plotno", "u_plotno"]) "-"
  block := jsOr (col normH cols ["block", "u_block"]) "-"
  park := jsOr (col normH cols ["park", "u_park"]) "-"
  corner := jsOr (col normH cols ["corner", "u_corner"]) "-"
  mainBoulevard := jsOr (col normH cols ["mb", "mainboulevard", "u_mainbu"]) "-"
  transactions := []

/-- The Transaction appended for one contributing row; `transid` is
`Date.now() + idx` with the wall clock as an explicit parameter, and
`doctotal` copies the account's `plotValue`. -/
def mkTx (normH cols : List String) (now : ℤ) (idx : Nat)
    (itemCode : String) (docTot paidVal osVal : ℚ) : Transaction where
  seq := idx
  transid := now + idx
  line_id := 0
  shortname := itemCode
  duedate := jsOr (col normH cols ["duedate"]) "-"
  receivable := parseVal (col normH cols ["receivable"])
  u_intno := parseVal (col normH cols ["u_intno"])
  u_intname := jsOr (col normH cols ["u_intname"]) "INSTALLMENT"
  transtype := "13"
  itemcode := itemCode
  plottype := "Res"
  currency := "PKR"
  description := ""
  doctotal := docTot
  status := "Synced"
  balance := 0
  balduedeb := osVal
  paysrc := 0
  amount_paid := paidVal
  receipt_date := col normH cols ["refdate"]
  mode := col normH cols ["mode"]
  surcharge := parseVal (col normH cols ["markup", "surcharge"])

/-- The candidate entity set under construction: the `userMap` and
`fileMap` of `handleMasterSync`. -/
structure BuildState where
  users : List (String × User)
  files : List (String × PropertyFile)
  deriving DecidableEq, Repr

/-- `rawCNIC = col(cols, ['ocnic','cnic','u_ocnic']) || ''` for one row. -/
def rowRawCnic (normH : List String) (line : String) : String :=
  jsOr (col normH (parseCSVLine line) cnicAliases) ""

/-- `normCNIC = rawCNIC.replace(/[^0-9X]/g, '')` for one row. -/
def rowCnic (normH : List String) (line : String) : String :=
  normCnic (rowRawCnic normH line)

/-- `itemCode = col(cols, ['itemcode','item_code','u_itemcode']) || ''`. -/
def rowItem (normH : List String) (line : String) : String :=
  jsOr (col normH (parseCSVLine line) itemAliases) ""

/-- Whether the row survives the `if (!normCNIC || !itemCode) return`
guard (a contributing row). -/
def rowOk (normH : List String) (line : String) : Bool :=
  ¬(rowCnic normH line = "" ∨ rowItem normH line = "")

/-- `paidVal = parseVal(col(cols, ['reconsum','paid']))`. -/
def rowPaid (normH : List String) (line : String) : ℚ :=
  parseVal (col normH (parseCSVLine line) ["reconsum", "paid"])

/-- `osVal = parseVal(col(cols, ['balduedeb','balance']))`. -/
def rowOs (normH : List String) (line : String) : ℚ :=
  parseVal (col normH (parseCSVLine line) ["balduedeb", "balance"])

/-- `const userMap = ...; if (!userMap.has(normCNIC)) userMap.set(...)`:
the member map after one contributing row's first phase. -/
def coreUserMap (normH : List String) (st : BuildState) (line : String) :
    List (String × User) :=
  if mapHas st.users (rowCnic normH line) then st.users
  else mapSet st.users (rowCnic normH line)
    (mkUser normH (parseCSVLine line) (rowRawCnic normH line) (rowCnic normH line))

/-- `userMap.get(normCNIC)!` after the member phase (the key is always
present there, so the default is never used). -/
def coreOwner (normH : List String) (st : BuildState) (line : String) : User :=
  (mapGet? (coreUserMap normH st line) (rowCnic normH line)).getD
    (mkUser normH (parseCSVLine line) (rowRawCnic normH line) (rowCnic normH line))

/-- `if (!fileMap.has(itemCode)) fileMap.set(...)`: the account map after
a contributing row's account-materialization phase. -/
def coreFileMap (normH : List String) (st : BuildState) (line : String) :
    List (String × PropertyFile) :=
  if mapHas st.files (rowItem normH line) then st.files
  else mapSet st.files (rowItem normH line)
    (mkFile normH (parseCSVLine line) (rowItem normH line) (rowRawCnic normH line)
      (coreOwner normH st line).name)

/-- `const prop = fileMap.get(itemCode)!`. -/
def coreProp (normH : List String) (st : BuildState) (line : String) : PropertyFile :=
  (mapGet? (coreFileMap normH st line) (rowItem normH line)).getD
    (mkFile normH (parseCSVLine line) (rowItem normH line) (rowRawCnic normH line)
      (coreOwner normH st line).name)

/-- The account record after this row's aggregate bumps and transaction
append. -/
def coreNewProp (normH : List String) (now : ℤ) (st : BuildState)
    (idx : Nat) (line : String) : PropertyFile :=
  { coreProp normH st line with
    paymentReceived := qAdd (coreProp normH st line).paymentReceived (rowPaid normH line)
    balance := qAdd (coreProp normH st line).balance (rowOs normH line)
    transactions := (coreProp normH st line).transactions ++
      [mkTx normH (parseCSVLine line) now idx (rowItem normH line)
        (coreProp normH st line).plotValue (rowPaid normH line) (rowOs normH line)] }

/-- The body of one `lines.slice(1).forEach` iteration, after the
missing-key guard: materialize the Member and the PropertyAccount on
first sight, then append this row's Transaction and bump the account's
aggregates. -/
def processRowCore (normH : List String) (now : ℤ) (st : BuildState)
    (idx : Nat) (line : String) : BuildState :=
  { users := coreUserMap normH st line
    files := mapSet (coreFileMap normH st line) (rowItem normH line)
      (coreNewProp normH now st idx line) }

/-- One iteration of the `lines.slice(1).forEach` loop: rows missing the
identity or the account key are silently skipped. -/
def processRow (normH : List String) (now : ℤ) (st : BuildState)
    (idx : Nat) (line : String) : BuildState :=
  if rowCnic normH line = "" ∨ rowItem normH line = "" then st
  else processRowCore normH now st idx line

/-- Fold the data rows (already paired with their 0-based index) into the
candidate entity set. -/
def buildRows (normH : List String) (now : ℤ) (st : BuildState)
    (rows : List (Nat × String)) : BuildState :=
  rows.foldl (fun st p => processRow normH now st p.1 p.2) st

/-- Normalize one header cell: `h.trim().toLowerCase()`. -/
def normHeader (l0 : String) : List String :=
  (parseCSVLine l0).map (fun h => toLowerStr (jsTrim h))

/-- `handleMasterSync` on the non-empty lines of the file: `none` is the
thrown `Format` error (fewer than two non-empty lines), otherwise the
built candidate member and account collections. -/
def masterSyncLines (now : ℤ) (ls : List String) :
    Option (List User × List PropertyFile) :=
  match ls with
  | l0 :: l1 :: rest =>
    let normH := normHeader l0
    let st := buildRows normH now ⟨[], []⟩ ((l1 :: rest).enum)
    some (mapValues st.users, mapValues st.files)
  | _ => none

/-- `handleMasterSync` on the raw file text: BOM stripped, split into
lines, blank lines removed. -/
def masterSync (now : ℤ) (text : String) :
    Option (List User × List PropertyFile) :=
  masterSyncLines now (nonEmptyLines (stripBOM text))

/-! ### Reconciliation engine (handleMassImport, handleRegister) -/

/-- `new Map(users.map(u => [key(u), u]))` extended by sequential `set`
calls: fold users into an insertion-ordered map keyed by normalized
identity. -/
def buildUserMap (base : List (String × User)) (us : List User) :
    List (String × User) :=
  us.foldl (fun m u => mapSet m (normCnic u.cnic) u) base

/-- Same for accounts, keyed by the verbatim account code `fileNo`. -/
def buildFileMap (base : List (String × PropertyFile)) (fs : List PropertyFile) :
    List (String × PropertyFile) :=
  fs.foldl (fun m f => mapSet m f.fileNo f) base

/-- `handleMassImport`: destructive mode replaces both collections with
the incoming data; additive mode overlays the incoming records onto maps
seeded from the live collections. -/
def massImport (live : Registry) (dataUsers : List User)
    (dataFiles : List PropertyFile) (isDestructive : Bool) : Registry :=
  if isDestructive then { users := dataUsers, files := dataFiles }
  else
    { users := mapValues (buildUserMap (buildUserMap [] live.users) dataUsers)
      files := mapValues (buildFileMap (buildFileMap [] live.files) dataFiles) }

/-- `handleMasterSync` followed by `onImportFullDatabase(..., true)`: a
thrown format error leaves the live Registry unchanged, otherwise the
built set is applied through `handleMassImport`. -/
def runImportLines (live : Registry) (now : ℤ) (ls : List String)
    (isDestructive : Bool) : Registry :=
  match masterSyncLines now ls with
  | none => live
  | some (us, fs) => massImport live us fs isDestructive

/-- `{ ...existing, ...u, status: 'Active' }`: every field of `User` is
present on `u`, so the spread of `u` shadows every field of `existing`
before `status` is forced to `Active`. -/
def mergeRegister (_existing u : User) : User :=
  { u with status := "Active" }

/-- `handleRegister`: the existence check compares normalized identities,
but the merge map compares the raw `cnic` strings. -/
def handleRegister (users : List User) (u : User) : List User :=
  if users.any (fun e => normCnic e.cnic = normCnic u.cnic) then
    users.map (fun e => if e.cnic = u.cnic then mergeRegister e u else e)
  else users ++ [u]

/-- `userFiles`: accounts whose owner identity matches the logged-in
user's normalized identity. -/
def userFilesOf (allFiles : List PropertyFile) (u : User) : List PropertyFile :=
  allFiles.filter (fun f => normCnic f.ownerCNIC = normCnic u.cnic)

/-! ### Persistence coordinator (boot, auto-save, syncToCloud) -/

/-- The three persistence tiers plus the error log. -/
structure PersistState where
  memory : Registry
  localStore : Registry
  remote : Registry
  log : List String
  deriving DecidableEq, Repr

/-- One mutation through `handleMassImport`/the auto-save effect: the
in-memory Registry is updated, the new value is written to the durable
local store, and the remote upsert either succeeds or — `syncToCloud`
catching the error — is only logged, leaving the remote tier and
everything already written untouched. -/
def applyMutation (s : PersistState) (f : Registry → Registry)
    (remoteOk : Bool) : PersistState :=
  let m := f s.memory
  { memory := m
    localStore := m
    remote := if remoteOk then m else s.remote
    log := if remoteOk then s.log else s.log ++ ["Cloud Sync Failed"] }

/-- `setUsers(u || MOCK_USERS)` in `boot`: the stored snapshot is a
JavaScript array, and arrays are truthy even when empty, so the seed is
substituted only when the local store returned nothing at all. -/
def hydrate {α : Type} (stored : Option (List α)) (seed : List α) : List α :=
  match stored with
  | none => seed
  | some l => l

/-- The boot-time hydration of the Registry's two collections. -/
def bootRegistry (storedUsers : Option (List User))
    (storedFiles : Option (List PropertyFile))
    (seedUsers : List User) (seedFiles : List PropertyFile) : Registry where
  users := hydrate storedUsers seedUsers
  files := hydrate storedFiles seedFiles

/-! ### The entity-builder invariant -/

/-- The contributing rows of an indexed row list: those that survive the
missing-key guard. -/
def contribRows (normH : List String) (rows : List (Nat × String)) :
    List (Nat × String) :=
  rows.filter (fun p => rowOk normH p.2)

/-- The contributing rows feeding account `k`, in file order. -/
def rowsFor (normH : List String) (k : String) (rows : List (Nat × String)) :
    List (Nat × String) :=
  (contribRows normH rows).filter (fun p => rowItem normH p.2 = k)

/-- The observable footprint of one transaction record: its sequence
number, paid amount and balance-due amount. -/
def txProj (t : Transaction) : Nat × ℚ × ℚ :=
  (t.seq, t.amount_paid, t.balduedeb)

/-- The footprint a contributing row should leave: its file position and
its normalized paid and balance-due amounts. -/
def rowProj (normH : List String) (p : Nat × String) : Nat × ℚ × ℚ :=
  (p.1, rowPaid normH p.2, rowOs normH p.2)

/-- The observable footprint of one account: its transaction footprints
and its two running aggregates. -/
def fileProj (f : PropertyFile) : List (Nat × ℚ × ℚ) × ℚ × ℚ :=
  (f.transactions.map txProj, f.paymentReceived, f.balance)

/-- What the footprint of account `k` must be after folding `rows`. -/
def rowsForData (normH : List String) (k : String)
    (rows : List (Nat × String)) : List (Nat × ℚ × ℚ) × ℚ × ℚ :=
  ((rowsFor normH k rows).map (rowProj normH),
   ((rowsFor normH k rows).map (fun p => rowPaid normH p.2)).sum,
   ((rowsFor normH k rows).map (fun p => rowOs normH p.2)).sum)

/-- Invariant of the entity-builder fold: member keys are exactly the
normalized identities of the contributing rows seen so far (no
duplicates), and each account's footprint is exactly the footprint of
its contributing rows. -/
def BuiltInv (normH : List String) (rows : List (Nat × String))
    (st : BuildState) : Prop :=
  (st.users.map Prod.fst).Nodup ∧
  (∀ k, mapHas st.users k =
    (contribRows normH rows).any (fun p => rowCnic normH p.2 = k)) ∧
  (st.files.map Prod.fst).Nodup ∧
  (∀ k, (mapGet? st.files k).map fileProj =
    if (contribRows normH rows).any (fun p => rowItem normH p.2 = k) then
      some (rowsForData normH k rows)
    else none)

/-- Every entry of the builder's member map carries the fixed
portal-placeholder fields and the identity-derived synthetic id and
email, and is keyed by its own normalized identity. -/
def UserEntryWF (p : String × User) : Prop :=
  p.2.role = "CLIENT" ∧ p.2.status = "Active" ∧ p.2.password = "password123" ∧
  p.2.id = "user-" ++ p.1 ∧ p.2.email = p.1 ++ "@dinproperties.com.pk" ∧
  p.1 = normCnic p.2.cnic


/-! ### Concrete data used in the verified examples -/

/-- The spec's concrete import scenario. -/
def scenarioLines : List String :=
  ["OCNIC,OName,ItemCode,DocTotal,ReconSum,BalDueDeb",
   "12345-6789012-3,Ali,P-001,100000,1000,200",
   "12345-6789012-3,Ali,P-001,100000,500,100"]

def demoFile : PropertyFile := mkFile [] [] "F-1" "12345" "Demo Owner"

/-- A nonempty live Registry. -/
def demoRegistry : Registry := { users := [], files := [demoFile] }

/-- A Member as left behind by a prior SAP import. -/
def sapMember : User :=
  { id := "user-1234567890123", cnic := "12345-6789012-3", name := "Imported Member",
    email := "1234567890123@dinproperties.com.pk", phone := "-",
    role := "CLIENT", status := "Active", password := "password123" }

/-- The same person registering through the portal: equal normalized
identity, different raw formatting and a chosen credential. -/
def portalUser : User :=
  { id := "web-77", cnic := "1234567890123", name := "Imported Member",
    email := "member@example.com", phone := "-",
    role := "CLIENT", status := "Pending", password := "chosen-secret" }

def c3Lines : List String := ["ocnic,itemcode", "1,P1"]

def c5OldFile : PropertyFile := mkFile [] [] "F-OLD" "111" "Old Owner"

def c5NewFile : PropertyFile := mkFile [] [] "F-NEW" "999" "New Owner"

def c5OldUser : User := mkUser [] [] "111" "111"

def c5NewUser : User := mkUser [] [] "999" "999"

def c5Live : Registry := { users := [c5OldUser], files := [c5OldFile] }

def regUpperX : User :=
  { id := "m-1", cnic := "12345-X", name := "A", email := "a@example.com",
    phone := "-", role := "CLIENT", status := "Active", password := "p1" }

def regLowerX : User :=
  { id := "m-2", cnic := "12345-x", name := "B", email := "b@example.com",
    phone := "-", role := "CLIENT", status := "Pending", password := "p2" }

def fileOwnedX : PropertyFile := mkFile [] [] "P9" "12345-X" "A"

/-- The Member built from the two-line import `ocnic,itemcode` / `1,P`. -/
def wUser9 : User :=
  { id := "user-1", cnic := "1", name := "SAP Member",
    email := "1@dinproperties.com.pk", phone := "-",
    role := "CLIENT", status := "Active", password := "password123" }

def c8SeedUser : User :=
  { id := "seed-1", cnic := "00000-0000000-0", name := "Seed",
    email := "seed@example.com", phone := "-",
    role := "ADMIN", status := "Active", password := "admin" }

/-! ### Lemmas -/

/-- `qAdd` is rational addition. -/
theorem qAdd_eq (a b : ℚ) : qAdd a b = a + b := by
  unfold qAdd
  rw [Rat.mkRat_eq_div]
  have ha : (a.den : ℚ) ≠ 0 := Nat.cast_ne_zero.mpr a.den_nz
  have hb : (b.den : ℚ) ≠ 0 := Nat.cast_ne_zero.mpr b.den_nz
  conv_rhs => rw [← Rat.num_div_den a, ← Rat.num_div_den b]
  rw [div_add_div _ _ ha hb]
  push_cast
  ring_nf

/-! ### Lemmas on the insertion-ordered map -/

theorem mapGet?_nil {α : Type} (k : String) : mapGet? ([] : List (String × α)) k = none :=
  rfl

theorem mapGet?_cons {α : Type} (a : String × α) (t : List (String × α)) (k : String) :
    mapGet? (a :: t) k = if a.1 = k then some a.2 else mapGet? t k := by
  by_cases h : a.1 = k
  · rw [if_pos h]
    unfold mapGet?
    rw [List.find?_cons_of_pos _ (by simp [h])]
    rfl
  · rw [if_neg h]
    unfold mapGet?
    rw [List.find?_cons_of_neg _ (by simp [h])]

theorem mapHas_nil {α : Type} (k : String) : mapHas ([] : List (String × α)) k = false :=
  rfl

theorem mapHas_cons {α : Type} (a : String × α) (t : List (String × α)) (k : String) :
    mapHas (a :: t) k = (decide (a.1 = k) || mapHas t k) := by
  simp [mapHas, List.any_cons]

theorem mapHas_iff_mem_keys {α : Type} (m : List (String × α)) (k : String) :
    mapHas m k = true ↔ k ∈ m.map Prod.fst := by
  induction m with
  | nil => simp [mapHas_nil]
  | cons a t ih =>
    rw [mapHas_cons, List.map_cons, List.mem_cons, Bool.or_eq_true, decide_eq_true_eq, ih]
    constructor
    · rintro (rfl | h)
      · exact Or.inl rfl
      · exact Or.inr h
    · rintro (rfl | h)
      · exact Or.inl rfl
      · exact Or.inr h

theorem mapGet?_eq_none_of_not_has {α : Type} {m : List (String × α)} {k : String}
    (h : mapHas m k = false) : mapGet? m k = none := by
  induction m with
  | nil => rfl
  | cons a t ih =>
    rw [mapHas_cons, Bool.or_eq_false_iff] at h
    rw [mapGet?_cons, if_neg (by simpa using h.1)]
    exact ih h.2

theorem mapGet?_isSome_of_has {α : Type} {m : List (String × α)} {k : String}
    (h : mapHas m k = true) : (mapGet? m k).isSome := by
  induction m with
  | nil => simp [mapHas_nil] at h
  | cons a t ih =>
    rw [mapHas_cons, Bool.or_eq_true, decide_eq_true_eq] at h
    rw [mapGet?_cons]
    by_cases ha : a.1 = k
    · rw [if_pos ha]; rfl
    · rw [if_neg ha]
      exact ih (h.resolve_left ha)

theorem mapGet?_mapSet_self {α : Type} (m : List (String × α)) (k : String) (v : α) :
    mapGet? (mapSet m k v) k = some v := by
  unfold mapSet
  by_cases h : m.any (fun p => p.1 = k)
  · rw [if_pos h]
    induction m with
    | nil => simp at h
    | cons a t ih =>
      rw [List.any_cons, Bool.or_eq_true, decide_eq_true_eq] at h
      rw [List.map_cons]
      by_cases ha : a.1 = k
      · rw [if_pos ha, mapGet?_cons, if_pos rfl]
      · rw [if_neg ha, mapGet?_cons, if_neg ha]
        exact ih (h.resolve_left ha)
  · rw [if_neg h]
    induction m with
    | nil => rw [List.nil_append, mapGet?_cons, if_pos rfl]
    | cons a t ih =>
      simp only [List.any_cons, Bool.or_eq_true, decide_eq_true_eq, not_or] at h
      rw [List.cons_append, mapGet?_cons, if_neg h.1]
      exact ih h.2

theorem mapGet?_mapSet_ne {α : Type} (m : List (String × α)) (k k' : String) (v : α)
    (h : k' ≠ k) : mapGet? (mapSet m k v) k' = mapGet? m k' := by
  unfold mapSet
  by_cases hh : m.any (fun p => p.1 = k)
  · rw [if_pos hh]
    clear hh
    induction m with
    | nil => rfl
    | cons a t ih =>
      rw [List.map_cons, mapGet?_cons, mapGet?_cons]
      by_cases ha : a.1 = k
      · rw [if_pos ha]
        have h1 : ¬((k, v).1 = k') := fun hc => h hc.symm
        have h2 : ¬(a.1 = k') := fun hc => h (hc.symm.trans ha)
        rw [if_neg h1, if_neg h2, ih]
      · rw [if_neg ha]
        by_cases ha2 : a.1 = k'
        · simp [ha2]
        · rw [if_neg ha2, if_neg ha2, ih]
  · rw [if_neg hh]
    induction m with
    | nil =>
      rw [List.nil_append, mapGet?_cons, if_neg (fun hc => h hc.symm)]
    | cons a t ih =>
      simp only [List.any_cons, Bool.or_eq_true, decide_eq_true_eq, not_or] at hh
      rw [List.cons_append, mapGet?_cons, mapGet?_cons]
      by_cases ha : a.1 = k'
      · simp [ha]
      · rw [if_neg ha, if_neg ha]
        exact ih hh.2

theorem mapSet_keys {α : Type} (m : List (String × α)) (k : String) (v : α) :
    (mapSet m k v).map Prod.fst =
      if mapHas m k then m.map Prod.fst else m.map Prod.fst ++ [k] := by
  unfold mapSet mapHas
  by_cases h : m.any (fun p => p.1 = k)
  · rw [if_pos h, if_pos h, List.map_map]
    apply List.map_congr_left
    intro p _
    by_cases hp : p.1 = k
    · simp [hp]
    · simp [hp]
  · rw [if_neg h, if_neg h, List.map_append]
    rfl

theorem mapHas_mapSet {α : Type} (m : List (String × α)) (k k' : String) (v : α) :
    mapHas (mapSet m k v) k' = (mapHas m k' || decide (k' = k)) := by
  rw [Bool.eq_iff_iff, Bool.or_eq_true, decide_eq_true_eq,
    mapHas_iff_mem_keys, mapHas_iff_mem_keys, mapSet_keys]
  by_cases h : mapHas m k
  · rw [if_pos h, mapHas_iff_mem_keys] at *
    constructor
    · exact Or.inl
    · rintro (hh | rfl)
      · exact hh
      · exact h
  · rw [if_neg h]
    simp [List.mem_append]

theorem mapSet_keys_nodup {α : Type} {m : List (String × α)} {k : String} {v : α}
    (h : (m.map Prod.fst).Nodup) : ((mapSet m k v).map Prod.fst).Nodup := by
  rw [mapSet_keys]
  by_cases hh : mapHas m k
  · rwa [if_pos hh]
  · rw [if_neg hh, List.nodup_append]
    refine ⟨h, List.nodup_singleton k, ?_⟩
    intro a ha hb
    rw [List.mem_singleton] at hb
    subst hb
    rw [← mapHas_iff_mem_keys] at ha
    exact absurd ha hh

theorem mapSet_forall {α : Type} {P : String × α → Prop} {m : List (String × α)}
    {k : String} {v : α} (hm : ∀ p ∈ m, P p) (hv : P (k, v)) :
    ∀ p ∈ mapSet m k v, P p := by
  intro p hp
  unfold mapSet at hp
  by_cases h : m.any (fun q => q.1 = k)
  · rw [if_pos h] at hp
    rw [List.mem_map] at hp
    obtain ⟨q, hq, hqe⟩ := hp
    by_cases hk : q.1 = k
    · rw [if_pos hk] at hqe
      exact hqe ▸ hv
    · rw [if_neg hk] at hqe
      exact hqe ▸ hm q hq
  · rw [if_neg h] at hp
    rcases List.mem_append.mp hp with h1 | h1
    · exact hm p h1
    · rw [List.mem_singleton] at h1
      exact h1 ▸ hv

theorem mapHas_append {α : Type} (m₁ m₂ : List (String × α)) (k : String) :
    mapHas (m₁ ++ m₂) k = (mapHas m₁ k || mapHas m₂ k) := by
  simp [mapHas, List.any_append]

/-! ### Lemmas on sequential `Map.set` folds (reconciliation engine) -/

theorem foldSet_get {α : Type} (key : α → String) (xs : List α)
    (base : List (String × α)) (k : String) (h : (xs.map key).Nodup) :
    mapGet? (xs.foldl (fun m x => mapSet m (key x) x) base) k =
      (xs.find? (fun x => key x = k)).elim (mapGet? base k) some := by
  induction xs generalizing base with
  | nil => rfl
  | cons x t ih =>
    rw [List.map_cons, List.nodup_cons] at h
    rw [List.foldl_cons]
    by_cases hx : key x = k
    · rw [List.find?_cons_of_pos _ (by simp [hx])]
      rw [ih _ h.2]
      have hfind : t.find? (fun y => key y = k) = none := by
        rw [List.find?_eq_none]
        intro y hy
        simp only [decide_eq_true_eq]
        intro hyk
        exact h.1 (List.mem_map.mpr ⟨y, hy, hyk.trans hx.symm⟩)
      rw [hfind]
      simp only [Option.elim]
      rw [← hx]
      exact mapGet?_mapSet_self base (key x) x
    · rw [List.find?_cons_of_neg _ (by simp [hx])]
      rw [ih _ h.2]
      cases hf : t.find? (fun y => key y = k) with
      | some y => rfl
      | none =>
        simp only [Option.elim]
        exact mapGet?_mapSet_ne base (key x) k x (fun hc => hx hc.symm)

theorem foldSet_has {α : Type} (key : α → String) (xs : List α)
    (base : List (String × α)) (k : String) :
    mapHas (xs.foldl (fun m x => mapSet m (key x) x) base) k =
      (mapHas base k || xs.any (fun x => key x = k)) := by
  induction xs generalizing base with
  | nil => simp
  | cons x t ih =>
    rw [List.foldl_cons, ih, mapHas_mapSet, List.any_cons]
    have hd : (decide (k = key x)) = (decide (key x = k)) := by simp [eq_comm]
    rw [hd, Bool.or_assoc]

theorem foldSet_fresh {α : Type} (key : α → String) (xs : List α)
    (base : List (String × α))
    (hfresh : ∀ x ∈ xs, mapHas base (key x) = false)
    (hnd : (xs.map key).Nodup) :
    xs.foldl (fun m x => mapSet m (key x) x) base =
      base ++ xs.map (fun x => (key x, x)) := by
  induction xs generalizing base with
  | nil => simp
  | cons x t ih =>
    rw [List.map_cons, List.nodup_cons] at hnd
    rw [List.foldl_cons]
    have hset : mapSet base (key x) x = base ++ [(key x, x)] := by
      unfold mapSet
      rw [if_neg]
      have := hfresh x (List.mem_cons_self x t)
      rw [mapHas] at this
      simp [this]
    rw [hset, ih (base ++ [(key x, x)])]
    · rw [List.append_assoc]
      rfl
    · intro y hy
      rw [mapHas_append, Bool.or_eq_false_iff]
      refine ⟨hfresh y (List.mem_cons_of_mem x hy), ?_⟩
      rw [mapHas_cons, mapHas_nil, Bool.or_eq_false_iff]
      refine ⟨?_, rfl⟩
      rw [decide_eq_false_iff_not]
      intro hc
      exact hnd.1 (List.mem_map.mpr ⟨y, hy, hc.symm⟩)
    · exact hnd.2

theorem foldSet_canonical {α : Type} (key : α → String) (xs : List α)
    (base : List (String × α)) (hb : ∀ p ∈ base, p.1 = key p.2) :
    ∀ p ∈ xs.foldl (fun m x => mapSet m (key x) x) base, p.1 = key p.2 := by
  induction xs generalizing base with
  | nil => exact hb
  | cons x t ih =>
    rw [List.foldl_cons]
    exact ih _ (mapSet_forall hb rfl)

theorem foldSet_nodup {α : Type} (key : α → String) (xs : List α)
    (base : List (String × α)) (hb : (base.map Prod.fst).Nodup) :
    ((xs.foldl (fun m x => mapSet m (key x) x) base).map Prod.fst).Nodup := by
  induction xs generalizing base with
  | nil => exact hb
  | cons x t ih =>
    rw [List.foldl_cons]
    exact ih _ (mapSet_keys_nodup hb)

theorem values_find_eq_mapGet? {α : Type} (key : α → String)
    (m : List (String × α)) (hk : ∀ p ∈ m, p.1 = key p.2) (k : String) :
    (mapValues m).find? (fun x => key x = k) = mapGet? m k := by
  induction m with
  | nil => rfl
  | cons a t ih =>
    have ha := hk a (List.mem_cons_self a t)
    simp only [mapValues, List.map_cons]
    rw [mapGet?_cons]
    by_cases h : a.1 = k
    · rw [if_pos h, List.find?_cons_of_pos _ (by simp [← ha, h])]
    · rw [if_neg h, List.find?_cons_of_neg _ (by simp [← ha, h])]
      exact ih (fun p hp => hk p (List.mem_cons_of_mem a hp))

theorem mapHas_eq_isSome {α : Type} (m : List (String × α)) (k : String) :
    mapHas m k = (mapGet? m k).isSome := by
  induction m with
  | nil => rfl
  | cons a t ih =>
    rw [mapHas_cons, mapGet?_cons]
    by_cases h : a.1 = k
    · simp [h]
    · simp [h, ih]

theorem contribRows_append_skip (normH : List String) (rows : List (Nat × String))
    (r : Nat × String) (h : rowOk normH r.2 = false) :
    contribRows normH (rows ++ [r]) = contribRows normH rows := by
  simp [contribRows, List.filter_append, h]

theorem contribRows_append_ok (normH : List String) (rows : List (Nat × String))
    (r : Nat × String) (h : rowOk normH r.2 = true) :
    contribRows normH (rows ++ [r]) = contribRows normH rows ++ [r] := by
  simp [contribRows, List.filter_append, h]

theorem rowOk_true_of_not (normH : List String) (line : String)
    (h : ¬(rowCnic normH line = "" ∨ rowItem normH line = "")) :
    rowOk normH line = true := by
  simp [rowOk, h]

theorem rowOk_false_of (normH : List String) (line : String)
    (h : rowCnic normH line = "" ∨ rowItem normH line = "") :
    rowOk normH line = false := by
  simp [rowOk, h]

theorem mapGet?_mapSet_cases {α : Type} (m : List (String × α)) (k0 k : String)
    (v : α) : mapGet? (mapSet m k0 v) k = if k = k0 then some v else mapGet? m k := by
  by_cases h : k = k0
  · subst h
    rw [if_pos rfl, mapGet?_mapSet_self]
  · rw [if_neg h, mapGet?_mapSet_ne _ _ _ _ h]

theorem mkFile_paymentReceived (normH cols : List String) (k raw nm : String) :
    (mkFile normH cols k raw nm).paymentReceived = 0 := rfl

theorem mkFile_balance (normH cols : List String) (k raw nm : String) :
    (mkFile normH cols k raw nm).balance = 0 := rfl

theorem mkFile_transactions (normH cols : List String) (k raw nm : String) :
    (mkFile normH cols k raw nm).transactions = [] := rfl

theorem txProj_mkTx (normH cols : List String) (now : ℤ) (idx : Nat)
    (k : String) (dt paid os : ℚ) :
    txProj (mkTx normH cols now idx k dt paid os) = (idx, paid, os) := rfl

theorem rowProj_mk (normH : List String) (idx : Nat) (line : String) :
    rowProj normH (idx, line) = (idx, rowPaid normH line, rowOs normH line) := rfl

theorem filter_eq_nil_of_any_false {α : Type} {l : List α} {p : α → Bool}
    (h : l.any p = false) : l.filter p = [] := by
  rw [List.filter_eq_nil_iff]
  rw [List.any_eq_false] at h
  exact h

/-- One `forEach` iteration preserves the entity-builder invariant. -/
theorem builtInv_step (normH : List String) (now : ℤ) (rows : List (Nat × String))
    (st : BuildState) (idx : Nat) (line : String) (h : BuiltInv normH rows st) :
    BuiltInv normH (rows ++ [(idx, line)]) (processRow normH now st idx line) := by
  obtain ⟨h1, h2, h3, h4⟩ := h
  by_cases hok : rowCnic normH line = "" ∨ rowItem normH line = ""
  · have hskip : processRow normH now st idx line = st := by
      simp [processRow, hok]
    have hc := contribRows_append_skip normH rows (idx, line) (rowOk_false_of normH line hok)
    rw [hskip]
    refine ⟨h1, ?_, h3, ?_⟩
    · intro k
      rw [hc]
      exact h2 k
    · intro k
      rw [hc]
      have hrd : rowsForData normH k (rows ++ [(idx, line)]) = rowsForData normH k rows := by
        simp only [rowsForData, rowsFor, hc]
      rw [hrd]
      exact h4 k
  · have hokt := rowOk_true_of_not normH line hok
    have hcore : processRow normH now st idx line = processRowCore normH now st idx line := by
      simp [processRow, hok]
    have hc := contribRows_append_ok normH rows (idx, line) hokt
    rw [hcore]
    refine ⟨?_, ?_, ?_, ?_⟩
    · show ((coreUserMap normH st line).map Prod.fst).Nodup
      unfold coreUserMap
      by_cases hu : mapHas st.users (rowCnic normH line) = true
      · rw [if_pos hu]
        exact h1
      · rw [if_neg hu]
        exact mapSet_keys_nodup h1
    · intro k
      show mapHas (coreUserMap normH st line) k = _
      rw [hc, List.any_append]
      have hsingle : ([((idx : Nat), line)].any fun p => rowCnic normH p.2 = k) =
          decide (rowCnic normH line = k) := by
        simp
      rw [hsingle]
      unfold coreUserMap
      by_cases hu : mapHas st.users (rowCnic normH line) = true
      · rw [if_pos hu, h2 k]
        by_cases hck : rowCnic normH line = k
        · have : (contribRows normH rows).any (fun p => rowCnic normH p.2 = k) = true := by
            rw [← h2 k, ← hck]
            exact hu
          rw [this]
          simp
        · simp [hck]
      · rw [if_neg hu, mapHas_mapSet, h2 k]
        have : (decide (k = rowCnic normH line)) = decide (rowCnic normH line = k) := by
          simp [eq_comm]
        rw [this]
    · show ((mapSet (coreFileMap normH st line) (rowItem normH line)
        (coreNewProp normH now st idx line)).map Prod.fst).Nodup
      apply mapSet_keys_nodup
      unfold coreFileMap
      by_cases hf : mapHas st.files (rowItem normH line) = true
      · rw [if_pos hf]
        exact h3
      · rw [if_neg hf]
        exact mapSet_keys_nodup h3
    · intro k
      show (mapGet? (mapSet (coreFileMap normH st line) (rowItem normH line)
        (coreNewProp normH now st idx line)) k).map fileProj = _
      rw [mapGet?_mapSet_cases]
      by_cases hk : k = rowItem normH line
      · subst hk
        rw [if_pos rfl, hc, List.any_append]
        have hsingle : ([((idx : Nat), line)].any
            fun p => rowItem normH p.2 = rowItem normH line) = true := by
          simp
        rw [hsingle, Bool.or_true, if_pos rfl]
        have hrf : rowsFor normH (rowItem normH line) (rows ++ [(idx, line)]) =
            rowsFor normH (rowItem normH line) rows ++ [(idx, line)] := by
          simp [rowsFor, hc, List.filter_append]
        by_cases hf : mapHas st.files (rowItem normH line) = true
        · obtain ⟨f, hfget⟩ := Option.isSome_iff_exists.mp
            (by rw [← mapHas_eq_isSome]; exact hf)
          have hprop : coreProp normH st line = f := by
            simp [coreProp, coreFileMap, hf, hfget]
          have hold := h4 (rowItem normH line)
          rw [hfget] at hold
          have hcondOld : (contribRows normH rows).any
              (fun p => rowItem normH p.2 = rowItem normH line) = true := by
            by_contra hcf
            rw [if_neg hcf] at hold
            simp at hold
          rw [if_pos hcondOld] at hold
          have hfp : fileProj f = rowsForData normH (rowItem normH line) rows := by
            simpa using hold
          have e1 : f.transactions.map txProj =
              (rowsFor normH (rowItem normH line) rows).map (rowProj normH) :=
            congrArg Prod.fst hfp
          have e2 : f.paymentReceived = ((rowsFor normH (rowItem normH line) rows).map
              (fun p => rowPaid normH p.2)).sum :=
            congrArg (fun x => x.2.1) hfp
          have e3 : f.balance = ((rowsFor normH (rowItem normH line) rows).map
              (fun p => rowOs normH p.2)).sum :=
            congrArg (fun x => x.2.2) hfp
          simp [coreNewProp, hprop, fileProj, rowsForData, hrf, List.map_append,
            List.sum_append, e1, e2, e3, txProj_mkTx, rowProj_mk, Prod.mk.injEq, qAdd_eq]
        · have hget0 : mapGet? st.files (rowItem normH line) = none :=
            mapGet?_eq_none_of_not_has (by simpa using hf)
          have hprop : coreProp normH st line =
              mkFile normH (parseCSVLine line) (rowItem normH line)
                (rowRawCnic normH line) (coreOwner normH st line).name := by
            simp [coreProp, coreFileMap, hf, mapGet?_mapSet_self]
          have hold := h4 (rowItem normH line)
          rw [hget0] at hold
          have hcondOld : (contribRows normH rows).any
              (fun p => rowItem normH p.2 = rowItem normH line) = false := by
            by_contra hcf
            rw [Bool.not_eq_false] at hcf
            rw [if_pos hcf] at hold
            simp at hold
          have hrfold : rowsFor normH (rowItem normH line) rows = [] :=
            filter_eq_nil_of_any_false hcondOld
          simp [coreNewProp, hprop, fileProj, rowsForData, hrf, hrfold,
            List.map_append, List.sum_append, mkFile_paymentReceived, mkFile_balance,
            mkFile_transactions, txProj_mkTx, rowProj_mk, Prod.mk.injEq, qAdd_eq]
      · rw [if_neg hk]
        have hcf : mapGet? (coreFileMap normH st line) k = mapGet? st.files k := by
          unfold coreFileMap
          by_cases hf : mapHas st.files (rowItem normH line) = true
          · rw [if_pos hf]
          · rw [if_neg hf, mapGet?_mapSet_ne _ _ _ _ hk]
        rw [hcf, hc, List.any_append]
        have hs : ([((idx : Nat), line)].any fun p => rowItem normH p.2 = k) = false := by
          simp
          exact fun hcon => hk hcon.symm
        rw [hs, Bool.or_false]
        have hne : ¬(rowItem normH line = k) := fun hcon => hk hcon.symm
        have hrlf : rowsFor normH k (rows ++ [(idx, line)]) = rowsFor normH k rows := by
          simp [rowsFor, hc, List.filter_append, hne]
        have hrd : rowsForData normH k (rows ++ [(idx, line)]) = rowsForData normH k rows := by
          simp only [rowsForData, hrlf]
        rw [hrd]
        exact h4 k

/-- The invariant holds of the empty starting state. -/
theorem builtInv_nil (normH : List String) : BuiltInv normH [] ⟨[], []⟩ := by
  refine ⟨List.nodup_nil, fun k => rfl, List.nodup_nil, fun k => rfl⟩

/-- Folding any row list preserves the invariant. -/
theorem builtInv_fold (normH : List String) (now : ℤ) (rows : List (Nat × String)) :
    ∀ (pre : List (Nat × String)) (st : BuildState), BuiltInv normH pre st →
      BuiltInv normH (pre ++ rows) (buildRows normH now st rows) := by
  induction rows with
  | nil =>
    intro pre st h
    simpa [buildRows] using h
  | cons r t ih =>
    intro pre st h
    have h1 := builtInv_step normH now pre st r.1 r.2 h
    have h2 := ih (pre ++ [r]) (processRow normH now st r.1 r.2) h1
    rw [List.append_assoc] at h2
    simpa [buildRows] using h2

/-! ### Shape of every materialized member -/

theorem userEntryWF_mkUser (normH cols : List String) (raw : String) :
    UserEntryWF (normCnic raw, mkUser normH cols raw (normCnic raw)) :=
  ⟨rfl, rfl, rfl, rfl, rfl, rfl⟩

theorem usersWF_step (normH : List String) (now : ℤ) (st : BuildState)
    (idx : Nat) (line : String) (h : ∀ p ∈ st.users, UserEntryWF p) :
    ∀ p ∈ (processRow normH now st idx line).users, UserEntryWF p := by
  by_cases hok : rowCnic normH line = "" ∨ rowItem normH line = ""
  · have hskip : processRow normH now st idx line = st := by
      simp [processRow, hok]
    rw [hskip]
    exact h
  · have heq : (processRow normH now st idx line).users = coreUserMap normH st line := by
      simp [processRow, hok]
      rfl
    rw [heq]
    unfold coreUserMap
    by_cases hu : mapHas st.users (rowCnic normH line) = true
    · rw [if_pos hu]
      exact h
    · rw [if_neg hu]
      exact mapSet_forall h
        (userEntryWF_mkUser normH (parseCSVLine line) (rowRawCnic normH line))

theorem usersWF_fold (normH : List String) (now : ℤ) (rows : List (Nat × String)) :
    ∀ st : BuildState, (∀ p ∈ st.users, UserEntryWF p) →
      ∀ p ∈ (buildRows normH now st rows).users, UserEntryWF p := by
  induction rows with
  | nil =>
    intro st h
    simpa [buildRows] using h
  | cons r t ih =>
    intro st h
    have h1 := usersWF_step normH now st r.1 r.2 h
    have h2 := ih (processRow normH now st r.1 r.2) h1
    simpa [buildRows] using h2

/-! ### Specializations of the fold lemmas to the two merge maps -/

theorem buildUserMap_get (base : List (String × User)) (us : List User) (k : String)
    (h : (us.map (fun u => normCnic u.cnic)).Nodup) :
    mapGet? (buildUserMap base us) k =
      (us.find? (fun u => normCnic u.cnic = k)).elim (mapGet? base k) some :=
  @foldSet_get User (fun u => normCnic u.cnic) us base k h

theorem buildFileMap_get (base : List (String × PropertyFile))
    (fs : List PropertyFile) (k : String)
    (h : (fs.map (fun f => f.fileNo)).Nodup) :
    mapGet? (buildFileMap base fs) k =
      (fs.find? (fun f => f.fileNo = k)).elim (mapGet? base k) some :=
  @foldSet_get PropertyFile (fun f => f.fileNo) fs base k h

theorem buildUserMap_canonical (base : List (String × User)) (us : List User)
    (hb : ∀ p ∈ base, p.1 = normCnic p.2.cnic) :
    ∀ p ∈ buildUserMap base us, p.1 = normCnic p.2.cnic :=
  @foldSet_canonical User (fun u => normCnic u.cnic) us base hb

theorem buildFileMap_canonical (base : List (String × PropertyFile))
    (fs : List PropertyFile) (hb : ∀ p ∈ base, p.1 = p.2.fileNo) :
    ∀ p ∈ buildFileMap base fs, p.1 = p.2.fileNo :=
  @foldSet_canonical PropertyFile (fun f => f.fileNo) fs base hb

theorem values_find_user (m : List (String × User))
    (hk : ∀ p ∈ m, p.1 = normCnic p.2.cnic) (k : String) :
    (mapValues m).find? (fun u => normCnic u.cnic = k) = mapGet? m k :=
  @values_find_eq_mapGet? User (fun u => normCnic u.cnic) m hk k

theorem values_find_file (m : List (String × PropertyFile))
    (hk : ∀ p ∈ m, p.1 = p.2.fileNo) (k : String) :
    (mapValues m).find? (fun f => f.fileNo = k) = mapGet? m k :=
  @values_find_eq_mapGet? PropertyFile (fun f => f.fileNo) m hk k

theorem buildFileMap_fresh (base : List (String × PropertyFile))
    (fs : List PropertyFile)
    (hfresh : ∀ f ∈ fs, mapHas base f.fileNo = false)
    (hnd : (fs.map (fun f => f.fileNo)).Nodup) :
    buildFileMap base fs = base ++ fs.map (fun f => (f.fileNo, f)) :=
  @foldSet_fresh PropertyFile (fun f => f.fileNo) fs base hfresh hnd

/-! ### Behaviour under an unresolvable identity column -/

theorem processRow_unresolvedCnic (normH : List String) (now : ℤ) (st : BuildState)
    (idx : Nat) (line : String) (h : getIdx normH cnicAliases = none) :
    processRow normH now st idx line = st := by
  have hc : rowCnic normH line = "" := by
    simp only [rowCnic, rowRawCnic, col, h]
    rfl
  simp [processRow, hc]

theorem buildRows_unresolvedCnic (normH : List String) (now : ℤ)
    (rows : List (Nat × String)) (h : getIdx normH cnicAliases = none) :
    ∀ st : BuildState, buildRows normH now st rows = st := by
  induction rows with
  | nil =>
    intro st
    rfl
  | cons r t ih =>
    intro st
    calc buildRows normH now st (r :: t)
        = buildRows normH now (processRow normH now st r.1 r.2) t := rfl
      _ = buildRows normH now st t := by
          rw [processRow_unresolvedCnic normH now st r.1 r.2 h]
      _ = st := ih st

theorem masterSyncLines_cons (now : ℤ) (l0 l1 : String) (rest : List String) :
    masterSyncLines now (l0 :: l1 :: rest) =
      some (mapValues (buildRows (normHeader l0) now ⟨[], []⟩ ((l1 :: rest).enum)).users,
            mapValues (buildRows (normHeader l0) now ⟨[], []⟩ ((l1 :: rest).enum)).files) :=
  rfl

/-! ### The claims -/

/-- C1 (corrected): an import with fewer than two non-empty lines is
rejected with the single thrown format error and leaves the live
Registry untouched; but — contrary to the claim — a header that resolves
no alias of the required identity field is NOT rejected: every data row
is silently skipped, the import reports success with an empty entity
set, and a destructive apply replaces the Registry with empty
collections. -/
theorem C1_format_error_policy :
    (∀ (live : Registry) (now : ℤ) (ls : List String) (d : Bool),
      ls.length < 2 →
      masterSyncLines now ls = none ∧ runImportLines live now ls d = live) ∧
    (∀ (live : Registry) (now : ℤ) (l0 l1 : String) (rest : List String),
      getIdx (normHeader l0) cnicAliases = none →
      masterSyncLines now (l0 :: l1 :: rest) = some ([], []) ∧
      runImportLines live now (l0 :: l1 :: rest) true =
        { users := [], files := [] }) := by
  constructor
  · intro live now ls d hlen
    cases ls with
    | nil => exact ⟨rfl, rfl⟩
    | cons a t =>
      cases t with
      | nil => exact ⟨rfl, rfl⟩
      | cons b t2 =>
        exact absurd hlen (by simp [List.length_cons])
  · intro live now l0 l1 rest h
    have hb := buildRows_unresolvedCnic (normHeader l0) now ((l1 :: rest).enum) h ⟨[], []⟩
    have hm : masterSyncLines now (l0 :: l1 :: rest) = some ([], []) := by
      rw [masterSyncLines_cons, hb]
      rfl
    refine ⟨hm, ?_⟩
    unfold runImportLines
    rw [hm]
    rfl

/-- C1 counterexample: a two-line input whose header resolves neither
required field is accepted (no format error) and destructively clears a
nonempty Registry — the import is not rejected and the Registry does not
stay unchanged. -/
theorem C1_counterexample :
    masterSyncLines 0 ["Foo,Bar", "1,2"] = some ([], []) ∧
    runImportLines demoRegistry 0 ["Foo,Bar", "1,2"] true ≠ demoRegistry := by
  refine ⟨by decide, by decide⟩

/-- C1 witness: the amended policy at concrete inputs. -/
theorem C1_witness :
    (masterSyncLines 0 ["OCNIC,ItemCode"] = none ∧
      runImportLines demoRegistry 0 ["OCNIC,ItemCode"] true = demoRegistry) ∧
    (masterSyncLines 0 ["Name,Phone", "x,y"] = some ([], []) ∧
      runImportLines demoRegistry 0 ["Name,Phone", "x,y"] true =
        { users := [], files := [] }) :=
  ⟨C1_format_error_policy.1 demoRegistry 0 ["OCNIC,ItemCode"] true (by decide),
   C1_format_error_policy.2 demoRegistry 0 "Name,Phone" "x,y" [] (by decide)⟩

/-- C2 (code bug): registration finds the existing member by normalized
identity but merges by raw identity. For raw forms that differ while
normalizing identically, the registration is silently dropped: the
existing record keeps its placeholder credential (no merge of the portal
credential or activation) and the new user is not appended either —
contradicting both the claim and the code's own `Identity Bridge`
comment. -/
theorem C2_registration_raw_merge_bug :
    normCnic sapMember.cnic = normCnic portalUser.cnic ∧
    sapMember.cnic ≠ portalUser.cnic ∧
    handleRegister [sapMember] portalUser = [sapMember] := by
  refine ⟨by decide, by decide, by decide⟩

/-- C3 counterexample: `transid` embeds the wall-clock time of the pass
(`Date.now() + idx`), so re-importing the same file at a later clock
yields different transaction records than the first import. -/
theorem C3_counterexample :
    runImportLines (runImportLines { users := [], files := [] } 0 c3Lines true) 1
        c3Lines true ≠
      runImportLines { users := [], files := [] } 0 c3Lines true := by
  decide

/-- C3 (corrected): destructive re-import is idempotent up to the clock —
with both passes at the same `Date.now()` value, a double import equals
a single import, for every file and starting Registry. -/
theorem C3_destructive_idempotent_fixed_clock (live : Registry) (now : ℤ)
    (ls : List String) :
    runImportLines (runImportLines live now ls true) now ls true =
      runImportLines live now ls true := by
  cases h : masterSyncLines now ls with
  | none => simp [runImportLines, h]
  | some r =>
    obtain ⟨us, fs⟩ := r
    simp [runImportLines, h, massImport]

/-- C4 (confirmed): the built candidate set keeps exactly one Member per
distinct normalized identity and one PropertyAccount per account code of
the contributing rows; each account's transaction footprints equal, in
file order, the footprints of its contributing rows, and the running
aggregates equal the sums of those rows' paid and balance-due amounts;
and the spec's concrete two-row scenario produces one Member and one
account `P-001` with `paymentReceived = 1500`, `balance = 300` and two
transactions in file order. -/
theorem C4_entity_builder :
    (∀ (normH : List String) (now : ℤ) (rows : List (Nat × String)),
      BuiltInv normH rows (buildRows normH now ⟨[], []⟩ rows)) ∧
    (∀ (now : ℤ) (l0 l1 : String) (rest : List String),
      masterSyncLines now (l0 :: l1 :: rest) =
        some (mapValues (buildRows (normHeader l0) now ⟨[], []⟩ ((l1 :: rest).enum)).users,
              mapValues (buildRows (normHeader l0) now ⟨[], []⟩ ((l1 :: rest).enum)).files)) ∧
    ((masterSyncLines 0 scenarioLines).map (fun r => r.1.length) = some 1) ∧
    ((masterSyncLines 0 scenarioLines).map (fun r => r.2.map (fun f => f.fileNo)) =
      some ["P-001"]) ∧
    ((masterSyncLines 0 scenarioLines).map
        (fun r => r.2.map (fun f => f.paymentReceived)) = some [1500]) ∧
    ((masterSyncLines 0 scenarioLines).map (fun r => r.2.map (fun f => f.balance)) =
      some [300]) ∧
    ((masterSyncLines 0 scenarioLines).map
        (fun r => r.2.map (fun f => f.transactions.map txProj)) =
      some [[(0, 1000, 200), (1, 500, 100)]]) := by
  refine ⟨?_, fun now l0 l1 rest => rfl, by decide, by decide, by decide, by decide,
    by decide⟩
  intro normH now rows
  have h := builtInv_fold normH now rows [] ⟨[], []⟩ (builtInv_nil normH)
  simpa using h

/-- C5 (confirmed): additive merge is whole-entity last-writer-wins per
key — a key present in the incoming set resolves to the incoming record,
a key present only in the live Registry keeps its record unchanged, and
a file of previously-unseen account codes appends its accounts after the
untouched existing ones. -/
theorem C5_additive_merge (live : Registry) (dataUsers : List User)
    (dataFiles : List PropertyFile)
    (hu : (live.users.map (fun u => normCnic u.cnic)).Nodup)
    (hf : (live.files.map (fun f => f.fileNo)).Nodup)
    (hdu : (dataUsers.map (fun u => normCnic u.cnic)).Nodup)
    (hdf : (dataFiles.map (fun f => f.fileNo)).Nodup) :
    (∀ k, (massImport live dataUsers dataFiles false).users.find?
        (fun u => normCnic u.cnic = k) =
      (dataUsers.find? (fun u => normCnic u.cnic = k)).elim
        (live.users.find? (fun u => normCnic u.cnic = k)) some) ∧
    (∀ k, (massImport live dataUsers dataFiles false).files.find?
        (fun f => f.fileNo = k) =
      (dataFiles.find? (fun f => f.fileNo = k)).elim
        (live.files.find? (fun f => f.fileNo = k)) some) ∧
    ((∀ g ∈ dataFiles, ∀ f ∈ live.files, g.fileNo ≠ f.fileNo) →
      (massImport live dataUsers dataFiles false).files = live.files ++ dataFiles) := by
  have husers : (massImport live dataUsers dataFiles false).users =
      mapValues (buildUserMap (buildUserMap [] live.users) dataUsers) := rfl
  have hfiles : (massImport live dataUsers dataFiles false).files =
      mapValues (buildFileMap (buildFileMap [] live.files) dataFiles) := rfl
  refine ⟨?_, ?_, ?_⟩
  · intro k
    rw [husers]
    have hcanon := buildUserMap_canonical (buildUserMap [] live.users) dataUsers
      (buildUserMap_canonical [] live.users
        (by intro p hp; exact absurd hp (List.not_mem_nil p)))
    rw [values_find_user _ hcanon k]
    rw [buildUserMap_get _ dataUsers k hdu]
    cases hfd : dataUsers.find? (fun u => normCnic u.cnic = k) with
    | some u => rfl
    | none =>
      simp only [Option.elim]
      rw [buildUserMap_get [] live.users k hu]
      cases hfl : live.users.find? (fun u => normCnic u.cnic = k) with
      | some u => rfl
      | none => rfl
  · intro k
    rw [hfiles]
    have hcanon := buildFileMap_canonical (buildFileMap [] live.files) dataFiles
      (buildFileMap_canonical [] live.files
        (by intro p hp; exact absurd hp (List.not_mem_nil p)))
    rw [values_find_file _ hcanon k]
    rw [buildFileMap_get _ dataFiles k hdf]
    cases hfd : dataFiles.find? (fun f => f.fileNo = k) with
    | some f0 => rfl
    | none =>
      simp only [Option.elim]
      rw [buildFileMap_get [] live.files k hf]
      cases hfl : live.files.find? (fun f => f.fileNo = k) with
      | some f0 => rfl
      | none => rfl
  · intro hdisj
    rw [hfiles]
    have hbase := buildFileMap_fresh [] live.files (by intro f0 hfm; rfl) hf
    have hfresh : ∀ g ∈ dataFiles, mapHas (buildFileMap [] live.files) g.fileNo = false := by
      intro g hg
      rw [hbase]
      simp only [List.nil_append, mapHas]
      rw [List.any_eq_false]
      intro p hp
      obtain ⟨f0, hf0, rfl⟩ := List.mem_map.mp hp
      simp only [decide_eq_true_eq]
      exact fun hcon => hdisj g hg f0 hf0 hcon.symm
    have hall := buildFileMap_fresh (buildFileMap [] live.files) dataFiles hfresh hdf
    rw [hall, hbase]
    simp only [mapValues, List.map_append, List.nil_append, List.map_map]
    have hid : ∀ (l : List PropertyFile),
        l.map (Prod.snd ∘ fun f => (f.fileNo, f)) = l := by
      intro l
      induction l with
      | nil => rfl
      | cons a t ih =>
        rw [List.map_cons, ih]
        rfl
    rw [hid, hid]

/-- C5 witness: an incoming set with one fresh account code strictly adds
the account and keeps the live collection's records. -/
theorem C5_witness :
    (massImport c5Live [c5NewUser] [c5NewFile] false).files =
      c5Live.files ++ [c5NewFile] ∧
    (massImport c5Live [c5NewUser] [c5NewFile] false).users.find?
      (fun u => normCnic u.cnic = "999") = some c5NewUser := by
  have h := C5_additive_merge c5Live [c5NewUser] [c5NewFile]
    (by decide) (by decide) (by decide) (by decide)
  refine ⟨h.2.2 (by decide), ?_⟩
  rw [h.1 "999"]
  rfl

/-- C6 (confirmed): numeric normalization is total — thousands separators
are stripped, parenthesized amounts parse to the positive value (the
code's consistent convention: parentheses are deleted, not negated), the
placeholders `NULL` (any case), `-` and the empty value give `0`, and
any text the float parser rejects degrades to `0` instead of aborting. -/
theorem C6_parseVal_normalization :
    parseVal (some "1,234.56") = mkRat 123456 100 ∧
    (mkRat 123456 100 : ℚ) = 1234.56 ∧
    parseVal (some "(500)") = 500 ∧
    parseVal (some "(1,234.56)") = mkRat 123456 100 ∧
    parseVal (some "NULL") = 0 ∧
    parseVal (some "null") = 0 ∧
    parseVal (some "-") = 0 ∧
    parseVal (some "") = 0 ∧
    parseVal none = 0 ∧
    (∀ s : String,
      jsParseFloat (stripParens (stripCommas s)) = none →
      parseVal (some s) = 0) := by
  refine ⟨by decide, by rw [Rat.mkRat_eq_div]; norm_num, by decide, by decide, by decide,
    by decide, by decide, by decide, rfl, ?_⟩
  intro s h
  simp only [parseVal]
  by_cases hp : s = "" ∨ toUpperStr s = "NULL" ∨ s = "-"
  · rw [if_pos hp]
  · rw [if_neg hp, h]

/-- C6 witness: a non-numeric cell degrades to zero. -/
theorem C6_witness : parseVal (some "N/A") = 0 :=
  C6_parseVal_normalization.2.2.2.2.2.2.2.2.2 "N/A" (by decide)

/-- C7 (confirmed): a failed remote upsert is logged and leaves the
in-memory Registry, the already-written local snapshot and the remote
tier untouched (no rollback); a subsequent mutation whose writes succeed
carries both mutations to every tier. -/
theorem C7_remote_failure_isolation (s : PersistState) (f g : Registry → Registry) :
    (applyMutation s f false).memory = f s.memory ∧
    (applyMutation s f false).localStore = f s.memory ∧
    (applyMutation s f false).remote = s.remote ∧
    (applyMutation s f false).log = s.log ++ ["Cloud Sync Failed"] ∧
    (applyMutation (applyMutation s f false) g true).memory = g (f s.memory) ∧
    (applyMutation (applyMutation s f false) g true).localStore = g (f s.memory) ∧
    (applyMutation (applyMutation s f false) g true).remote = g (f s.memory) :=
  ⟨rfl, rfl, rfl, rfl, rfl, rfl, rfl⟩

/-- C8 counterexample: a stored snapshot that is present but EMPTY is
used as-is (a JavaScript array is truthy even when empty), so the
Registry boots empty instead of being populated from the seed data —
the claim's `absent or empty` fallback does not hold for `empty`. -/
theorem C8_counterexample :
    bootRegistry (some []) (some []) [c8SeedUser] [demoFile] =
      { users := [], files := [] } ∧
    ([] : List User) ≠ [c8SeedUser] :=
  ⟨rfl, by decide⟩

/-- C8 (corrected): hydration substitutes the seed data only when the
stored snapshot is absent; any present snapshot — the empty one
included — populates the Registry as-is. -/
theorem C8_hydration (seedU : List User) (seedF : List PropertyFile)
    (lu : List User) (lf : List PropertyFile) :
    bootRegistry none none seedU seedF = { users := seedU, files := seedF } ∧
    bootRegistry (some lu) (some lf) seedU seedF = { users := lu, files := lf } :=
  ⟨rfl, rfl⟩

/-- C9 (confirmed): every Member materialized by the CSV import carries
role `CLIENT`, status `Active`, the fixed credential placeholder
`password123`, the synthetic id `user-<normalized identity>` and the
derived email `<normalized identity>@dinproperties.com.pk`. -/
theorem C9_materialized_member_defaults (normH : List String) (now : ℤ)
    (rows : List (Nat × String)) :
    ∀ u ∈ mapValues (buildRows normH now ⟨[], []⟩ rows).users,
      u.role = "CLIENT" ∧ u.status = "Active" ∧ u.password = "password123" ∧
      u.id = "user-" ++ normCnic u.cnic ∧
      u.email = normCnic u.cnic ++ "@dinproperties.com.pk" := by
  intro u hu
  simp only [mapValues] at hu
  obtain ⟨p, hp, hpe⟩ := List.mem_map.mp hu
  have hwf := usersWF_fold normH now rows ⟨[], []⟩
    (by intro q hq; exact absurd hq (List.not_mem_nil q)) p hp
  obtain ⟨w1, w2, w3, w4, w5, w6⟩ := hwf
  subst hpe
  exact ⟨w1, w2, w3, by rw [w4, w6], by rw [w5, w6]⟩

/-- C9 witness: the member built from the import `ocnic,itemcode` / `1,P`. -/
theorem C9_witness :
    wUser9.role = "CLIENT" ∧ wUser9.status = "Active" ∧
    wUser9.password = "password123" ∧
    wUser9.id = "user-" ++ normCnic wUser9.cnic ∧
    wUser9.email = normCnic wUser9.cnic ++ "@dinproperties.com.pk" :=
  C9_materialized_member_defaults (normHeader "ocnic,itemcode") 0 [(0, "1,P")]
    wUser9 (by decide)

/-- C10 (confirmed): identity normalization keeps exactly the decimal
digits and the uppercase `X`, in order; it is case-sensitive, so
`12345-x` and `12345-X` are distinct merge keys for the entity builder,
registration, additive merge and owner-to-file matching alike. -/
theorem C10_identity_normalization :
    (∀ s : String, (normCnic s).toList =
      s.toList.filter (fun c => c.isDigit || c = 'X')) ∧
    normCnic "12345-x" = "12345" ∧
    normCnic "12345-X" = "12345X" ∧
    normCnic "12345-x" ≠ normCnic "12345-X" ∧
    (mapValues (buildRows (normHeader "ocnic,itemcode") 0 ⟨[], []⟩
      [(0, "12345-x,P1"), (1, "12345-X,P1")]).users).length = 2 ∧
    handleRegister [regUpperX] regLowerX = [regUpperX, regLowerX] ∧
    (massImport { users := [regUpperX], files := [] } [regLowerX] [] false).users =
      [regUpperX, regLowerX] ∧
    userFilesOf [fileOwnedX] regLowerX = [] := by
  refine ⟨fun s => rfl, by decide, by decide, by decide, by decide, by decide,
    by decide, by decide⟩

end DinRegistry
